import Mathlib

/-!
Verification of the LineEditor shim (`src/Sources/CLibEdit/`).

The repository is a thin C shim over the system line-editing library.  The
shim's own code (argument guards, the global generator slot, the trampoline,
the bell fallback, the forwarding wrappers) is embedded directly from
`libedit_shim.c`.  Behaviour that lives inside the wrapped library rather
than in this repository (the history append itself, the history file
format, the match-collection loop, the completion outcome policy) is
modelled from the specification; each such definition carries a doc comment
starting with `Modelled from the spec:`.

Conventions: a C `char *` value is `Option String` (`none` is the NULL
pointer); the in-memory history is a `List String`, oldest entry first, so
the most recently appended entry is the last element; file contents are
`List Char`.
-/

/-- Modelled from the spec: the library's history append.  The spec's
History Store `append(line)` is "ignored (no-op) if `line` is ... identical
to the most recently appended entry"; otherwise the line is appended as one
new entry at the recent end.  (The empty-line guard is in the shim itself,
see `le_add_history`.) -/
def add_history (line : String) (h : List String) : List String :=
  if h.getLast? = some line then h else h ++ [line]

/-- Embeds `le_add_history` from `libedit_shim.c`:
`if (line && *line) add_history(line);`.
The argument is `Option String` because the C parameter is a possibly-NULL
`const char *`; `*line` being nonzero is the string being nonempty.  The
`&&` short-circuits, so a NULL argument is never dereferenced and the
function reduces without inspecting a string at all. -/
def le_add_history (line : Option String) (h : List String) : List String :=
  match line with
  | none => h
  | some l => if l = "" then h else add_history l h

/-- Modelled from the spec: the library's clear-history call removes every
stored entry. -/
def clear_history (_h : List String) : List String := []

/-- Embeds `le_clear_history` from `libedit_shim.c`: forwards to
`clear_history()`. -/
def le_clear_history (h : List String) : List String := clear_history h

theorem add_history_dedup (line : String) (h : List String)
    (hl : h.getLast? = some line) : add_history line h = h := by
  simp [add_history, hl]

theorem add_history_append (line : String) (h : List String)
    (hl : h.getLast? ≠ some line) : add_history line h = h ++ [line] := by
  simp [add_history, hl]

/-- C1: `le_add_history` is a no-op when the line is empty or identical to
the most recently appended entry, and otherwise appends the line as exactly
one new entry, so the history length increases by exactly 1. -/
theorem le_add_history_spec (l : String) (h : List String) :
    ((l = "" ∨ h.getLast? = some l) → le_add_history (some l) h = h) ∧
    (l ≠ "" → h.getLast? ≠ some l →
      le_add_history (some l) h = h ++ [l] ∧
      (le_add_history (some l) h).length = h.length + 1) := by
  constructor
  · rintro (rfl | hlast)
    · simp [le_add_history]
    · by_cases hl0 : l = ""
      · simp [le_add_history, hl0]
      · simp [le_add_history, hl0, add_history_dedup l h hlast]
  · intro hne hlast
    simp [le_add_history, hne, add_history_append l h hlast]

theorem le_add_history_spec_witness :
    (le_add_history (some "ls") ["cd", "ls"] = ["cd", "ls"]) ∧
    (le_add_history (some "") ["cd"] = ["cd"]) ∧
    (le_add_history (some "ls") ["cd"] = ["cd", "ls"] ∧
      (le_add_history (some "ls") ["cd"]).length = 2) := by
  refine ⟨(le_add_history_spec "ls" ["cd", "ls"]).1 (Or.inr (by decide)),
    (le_add_history_spec "" ["cd"]).1 (Or.inl rfl),
    (le_add_history_spec "ls" ["cd"]).2 (by decide) (by decide)⟩

/-- C9: `le_add_history` applied to a NULL pointer is a safe no-op: the
match on `none` returns the history unchanged without ever producing a
string to inspect (the C `&&` short-circuits before `*line`). -/
theorem le_add_history_null (h : List String) :
    le_add_history none h = h := rfl

/-! ## The top-level read-line call -/

/-- The three outcomes the spec assigns to the top-level read-line
operation. -/
inductive ReadOutcome
  | submitted (line : String)
  | endOfInput
  | interrupted
deriving DecidableEq

/-- Embeds `le_readline` from `libedit_shim.c`: `return readline(prompt);`,
a pure forwarding of the library call.  The returned C `char *` is
`Option String`: `some` a malloc'd string or `none` for NULL. -/
def le_readline (readlineImpl : String → Option String) (prompt : String) :
    Option String :=
  readlineImpl prompt

/-- The return-value contract documented in `libedit_shim.h` line 10:
`le_readline` "returns malloc'd string or NULL on EOF".  An encoding of the
read outcomes into the C return values is faithful to that contract when a
submitted line comes back as that string and end-of-input comes back as
NULL. -/
def faithfulReadlineEncoding (f : ReadOutcome → Option String) : Prop :=
  (∀ s, f (.submitted s) = some s) ∧ f .endOfInput = none

/-- C2, counterexample: no encoding of the three outcomes into the
`char *` result of `le_readline` that respects the documented contract
(string on submit, NULL on EOF) keeps the three outcomes mutually
distinguishable: the interrupted outcome necessarily collides with EOF or
with some submitted string, because the codomain offers no third marker. -/
theorem le_readline_not_three_way :
    ¬ ∃ f : ReadOutcome → Option String,
        faithfulReadlineEncoding f ∧ Function.Injective f := by
  rintro ⟨f, ⟨hs, he⟩, hinj⟩
  cases hi : f .interrupted with
  | none =>
      have : ReadOutcome.interrupted = ReadOutcome.endOfInput :=
        hinj (hi.trans he.symm)
      exact ReadOutcome.noConfusion this
  | some s =>
      have : ReadOutcome.interrupted = ReadOutcome.submitted s :=
        hinj (hi.trans (hs s).symm)
      exact ReadOutcome.noConfusion this

/-- C2, amended: `le_readline` forwards the library result unchanged; under
the documented contract the caller can distinguish a submitted line from
the NULL end-of-input marker, but any cancellation outcome is forced to
coincide either with the EOF marker or with some submitted string — there
is no third distinguished marker. -/
theorem le_readline_outcome_classes (impl : String → Option String)
    (f : ReadOutcome → Option String) (hf : faithfulReadlineEncoding f) :
    (∀ p, le_readline impl p = impl p) ∧
    (∀ s, f (.submitted s) ≠ f .endOfInput) ∧
    (f .interrupted = f .endOfInput ∨
      ∃ s, f .interrupted = f (.submitted s)) := by
  obtain ⟨hs, he⟩ := hf
  refine ⟨fun _ => rfl, fun s hcollide => ?_, ?_⟩
  · rw [hs s, he] at hcollide
    exact Option.noConfusion hcollide
  · cases hi : f .interrupted with
    | none => exact Or.inl (he.symm)
    | some s => exact Or.inr ⟨s, (hs s).symm⟩

theorem le_readline_outcome_classes_witness :
    (∀ p, le_readline (fun _ => none) p = none) ∧
    (∀ s, (fun o => match o with
            | ReadOutcome.submitted s => some s
            | _ => none) (ReadOutcome.submitted s) ≠
          (fun o => match o with
            | ReadOutcome.submitted s => some s
            | _ => none) ReadOutcome.endOfInput) ∧
    ((fun o => match o with
        | ReadOutcome.submitted s => some s
        | _ => none) ReadOutcome.interrupted =
      (fun o => match o with
        | ReadOutcome.submitted s => some s
        | _ => none) ReadOutcome.endOfInput ∨
      ∃ s, (fun o => match o with
        | ReadOutcome.submitted s => some s
        | _ => none) ReadOutcome.interrupted =
          (fun o => match o with
            | ReadOutcome.submitted s => some s
            | _ => none) (ReadOutcome.submitted s)) :=
  le_readline_outcome_classes (fun _ => none)
    (fun o => match o with
      | ReadOutcome.submitted s => some s
      | _ => none)
    ⟨fun _ => rfl, rfl⟩

/-! ## History persistence -/

/-- What the load path can find at a history file path. -/
inductive FileState
  | absent
  | denied
  | content (chars : List Char)
deriving DecidableEq

/-- Modelled from the spec: the history file writer.  "plain text, one
entry per line, UTF-8, newline-terminated, no embedded escaping beyond
rejecting literal newlines within an entry. Oldest entry first." -/
def serializeHistory : List String → List Char
  | [] => []
  | e :: rest => e.data ++ '\n' :: serializeHistory rest

/-- Splits file characters into newline-terminated entries; `acc` holds the
characters of the current entry in reverse.  A nonempty unterminated tail
still yields a final entry. -/
def splitLinesAux : List Char → List Char → List String
  | [], acc => if acc.isEmpty then [] else [String.mk acc.reverse]
  | c :: cs, acc =>
      if c = '\n' then String.mk acc.reverse :: splitLinesAux cs []
      else splitLinesAux cs (c :: acc)

/-- Modelled from the spec: the history file reader, parsing one entry per
line, oldest first. -/
def parseHistory (cs : List Char) : List String := splitLinesAux cs []

/-- Modelled from the spec: the library's `read_history`.  "a missing file
on load is treated as empty history, not an error"; other failures
(permission denied) "report a distinguishable error" — per the header,
0 on success and -1 on error — rather than terminating.  Returns the
resulting store together with the status code. -/
def read_history (f : FileState) : List String × Int :=
  match f with
  | .absent => ([], 0)
  | .denied => ([], -1)
  | .content cs => (parseHistory cs, 0)

/-- Modelled from the spec: the library's `write_history`.  "save truncates
and rewrites the whole file"; on failure the error code -1 is reported and
the file keeps its previous state; 0 on success. -/
def write_history (h : List String) (old : FileState) (writable : Bool) :
    FileState × Int :=
  if writable then (.content (serializeHistory h), 0) else (old, -1)

/-- Embeds `le_read_history` from `libedit_shim.c`:
`return read_history(path);`. -/
def le_read_history (f : FileState) : List String × Int := read_history f

/-- Embeds `le_write_history` from `libedit_shim.c`:
`return write_history(path);`. -/
def le_write_history (h : List String) (old : FileState) (writable : Bool) :
    FileState × Int :=
  write_history h old writable

/-- C3: history load and save report a status code the caller can inspect
— 0 on success, -1 on failure, two distinct values — instead of
terminating (both functions are total on every file state), and loading a
missing file yields the empty history with the success code. -/
theorem history_io_error_reporting :
    le_read_history .absent = ([], 0) ∧
    (∀ cs, (le_read_history (.content cs)).2 = 0) ∧
    (le_read_history .denied).2 = -1 ∧
    (-1 : Int) ≠ 0 ∧
    (∀ h old, (le_write_history h old false).2 = -1) ∧
    (∀ h old, (le_write_history h old true).2 = 0) := by
  refine ⟨rfl, fun _ => rfl, rfl, by decide, fun _ _ => rfl, fun _ _ => rfl⟩

theorem splitLinesAux_append (e : List Char) (rest : List Char)
    (acc : List Char) (hnl : '\n' ∉ e) :
    splitLinesAux (e ++ '\n' :: rest) acc =
      String.mk (acc.reverse ++ e) :: splitLinesAux rest [] := by
  induction e generalizing acc with
  | nil => simp [splitLinesAux]
  | cons c e ih =>
      have hc : ¬ c = '\n' := fun h => hnl (h ▸ List.mem_cons_self c e)
      have hnl' : '\n' ∉ e := fun h => hnl (List.mem_cons_of_mem c h)
      simp only [List.cons_append, splitLinesAux, if_neg hc, List.append_eq]
      rw [ih (c :: acc) hnl']
      simp

theorem parseHistory_serializeHistory (es : List String)
    (hnl : ∀ e ∈ es, '\n' ∉ e.data) :
    parseHistory (serializeHistory es) = es := by
  induction es with
  | nil => rfl
  | cons e rest ih =>
      have he : '\n' ∉ e.data := hnl e (List.mem_cons_self e rest)
      have hrest : ∀ x ∈ rest, '\n' ∉ x.data :=
        fun x hx => hnl x (List.mem_cons_of_mem e hx)
      show splitLinesAux (e.data ++ '\n' :: serializeHistory rest) [] = e :: rest
      rw [splitLinesAux_append e.data (serializeHistory rest) [] he]
      simp only [List.reverse_nil, List.nil_append]
      have h2 : splitLinesAux (serializeHistory rest) [] = rest := ih hrest
      rw [h2]

/-- C4: for a history whose entries contain no newline characters, a
successful save followed by a load of the written file reproduces the
original ordered entry sequence exactly, oldest first, with the success
code. -/
theorem save_then_load_round_trip (es : List String) (old : FileState)
    (hnl : ∀ e ∈ es, '\n' ∉ e.data) :
    le_read_history (le_write_history es old true).1 = (es, 0) := by
  show read_history (.content (serializeHistory es)) = (es, 0)
  simp [read_history, parseHistory_serializeHistory es hnl]

theorem save_then_load_round_trip_witness :
    (∀ e ∈ ["ls", "cd /tmp", "make"], '\n' ∉ e.data) ∧
    le_read_history
        (le_write_history ["ls", "cd /tmp", "make"] .absent true).1 =
      (["ls", "cd /tmp", "make"], 0) :=
  ⟨by decide, save_then_load_round_trip ["ls", "cd /tmp", "make"] .absent
    (by decide)⟩

/-! ## Completion -/

/-- Embeds `le_generator_trampoline` from `libedit_shim.c`:
`if (!s_generator) return NULL; return s_generator(text, state);`.
The first argument is the global `s_generator` slot (`none` is the NULL
function pointer). -/
def le_generator_trampoline
    (s_generator : Option (String → Nat → Option String))
    (text : String) (state : Nat) : Option String :=
  match s_generator with
  | none => none
  | some g => g text state

/-- Modelled from the spec: the library's match-collection loop behind
`rl_completion_matches` "will call le_generator_trampoline with
state = 0,1,2,..." (comment in `libedit_shim.c`) "until it returns None",
collecting the candidates.  `fuel` bounds the loop so the model is total;
`i` is the next state argument. -/
def completionMatchesAux (g : String → Nat → Option String) (text : String) :
    Nat → Nat → List String
  | 0, _ => []
  | fuel + 1, i =>
      match g text i with
      | none => []
      | some c => c :: completionMatchesAux g text fuel (i + 1)

/-- The sequence of state arguments the entry function receives during one
match-collection loop; the final call, the one answered with NULL, is
included, and the loop stops there. -/
def completionCallsAux (g : String → Nat → Option String) (text : String) :
    Nat → Nat → List Nat
  | 0, _ => []
  | fuel + 1, i =>
      match g text i with
      | none => [i]
      | some _ => i :: completionCallsAux g text fuel (i + 1)

/-- Modelled from the spec: `rl_completion_matches(text, entry)` collects
the candidates the entry function yields for states 0, 1, 2, .... -/
def rl_completion_matches (g : String → Nat → Option String)
    (text : String) (fuel : Nat) : List String :=
  completionMatchesAux g text fuel 0

/-- Embeds `attempted_completion` from `libedit_shim.c`:
`if (!s_generator) return NULL;
 return rl_completion_matches(text, le_generator_trampoline);`
(`start` and `end` are explicitly ignored by the C code). -/
def attempted_completion
    (s_generator : Option (String → Nat → Option String))
    (text : String) (fuel : Nat) : Option (List String) :=
  match s_generator with
  | none => none
  | some _ =>
      some (rl_completion_matches (le_generator_trampoline s_generator)
        text fuel)

theorem completionCallsAux_range (g : String → Nat → Option String)
    (text : String) (k : Nat) :
    ∀ fuel i, k + 1 ≤ fuel → g text (i + k) = none →
      (∀ j, j < k → (g text (i + j)).isSome) →
      completionCallsAux g text fuel i =
        (List.range (k + 1)).map (fun j => i + j) := by
  induction k with
  | zero =>
      intro fuel i hfuel hnone _
      obtain ⟨f, rfl⟩ : ∃ f, fuel = f + 1 := ⟨fuel - 1, by omega⟩
      have h0 : g text i = none := by simpa using hnone
      simp [completionCallsAux, h0, List.range_succ]
  | succ k ih =>
      intro fuel i hfuel hnone hsome
      obtain ⟨f, rfl⟩ : ∃ f, fuel = f + 1 := ⟨fuel - 1, by omega⟩
      have h0 : (g text i).isSome := by
        have := hsome 0 (Nat.succ_pos k)
        simpa using this
      obtain ⟨c, hc⟩ := Option.isSome_iff_exists.mp h0
      have hrec : completionCallsAux g text f (i + 1) =
          (List.range (k + 1)).map (fun j => (i + 1) + j) := by
        refine ih f (i + 1) (by omega) ?_ ?_
        · have : i + 1 + k = i + (k + 1) := by omega
          rw [this]; exact hnone
        · intro j hj
          have : i + 1 + j = i + (j + 1) := by omega
          rw [this]
          exact hsome (j + 1) (by omega)
      simp only [completionCallsAux, hc]
      rw [hrec]
      nth_rewrite 2 [List.range_succ_eq_map]
      simp only [List.map_cons, List.map_map, Nat.add_zero]
      congr 1
      congr 1
      funext j
      simp only [Function.comp_apply, Nat.succ_eq_add_one]
      omega

/-- C5: during one match-collection cycle with registered generator `g`
that answers NULL first at state `k`, the trampoline-forwarded generator is
called exactly at states 0, 1, ..., k in that order: the state starts at 0,
increases by 1 on each call, the cycle stops at the first NULL answer and
the generator is not called again in that cycle. -/
theorem generator_call_indices (g : String → Nat → Option String)
    (text : String) (k fuel : Nat) (hfuel : k + 1 ≤ fuel)
    (hnone : g text k = none)
    (hsome : ∀ j, j < k → (g text j).isSome) :
    completionCallsAux (le_generator_trampoline (some g)) text fuel 0 =
      List.range (k + 1) := by
  have hnone' : le_generator_trampoline (some g) text (0 + k) = none := by
    simpa [le_generator_trampoline] using hnone
  have hsome' : ∀ j, j < k →
      (le_generator_trampoline (some g) text (0 + j)).isSome := by
    intro j hj
    simpa [le_generator_trampoline] using hsome j hj
  rw [completionCallsAux_range (le_generator_trampoline (some g)) text k fuel
    0 hfuel hnone' hsome']
  simp

/-- A concrete generator yielding two candidates then NULL. -/
def sampleGen : String → Nat → Option String :=
  fun _ i => if i = 0 then some "cat" else if i = 1 then some "car" else none

/-- A concrete generator yielding no candidates at all. -/
def emptyGen : String → Nat → Option String := fun _ _ => none

theorem generator_call_indices_witness :
    2 + 1 ≤ 9 ∧ sampleGen "ca" 2 = none ∧
    completionCallsAux (le_generator_trampoline (some sampleGen)) "ca" 9 0 =
      [0, 1, 2] :=
  ⟨by decide, by decide,
    generator_call_indices sampleGen "ca" 2 9 (by decide) (by decide)
      (by decide)⟩

/-! ## The global completion slot -/

/-- The shim's process-wide mutable globals in `libedit_shim.c`: the
`static le_generator_t s_generator` slot and whether
`rl_attempted_completion_function` has been pointed at
`attempted_completion`. -/
structure ShimState where
  s_generator : Option (String → Nat → Option String)
  hookInstalled : Bool

/-- Embeds the initial values of the globals:
`static le_generator_t s_generator = NULL;` and an untouched
`rl_attempted_completion_function`. -/
def initialShimState : ShimState := ⟨none, false⟩

/-- Embeds `le_set_completion` from `libedit_shim.c`:
`s_generator = generator;
 rl_attempted_completion_function = (rl_completion_func_t *)attempted_completion;`. -/
def le_set_completion (g : String → Nat → Option String) (st : ShimState) :
    ShimState :=
  { st with s_generator := some g, hookInstalled := true }

/-- C6: a single process-wide generator slot.  After `le_set_completion g`
the slot holds exactly `g`, a later registration fully replaces an earlier
one (the most recent wins, whatever was there before), every completion
entry point forwards to the registered `g`, and with no generator
registered — as in the initial state — both `attempted_completion` and the
trampoline return NULL. -/
theorem single_generator_slot (g g' : String → Nat → Option String)
    (st : ShimState) (t : String) (i fuel : Nat) :
    (le_set_completion g st).s_generator = some g ∧
    le_set_completion g (le_set_completion g' st) = le_set_completion g st ∧
    le_generator_trampoline (le_set_completion g st).s_generator t i =
      g t i ∧
    attempted_completion (le_set_completion g st).s_generator t fuel =
      some (rl_completion_matches (le_generator_trampoline (some g)) t
        fuel) ∧
    (st.s_generator = none →
      attempted_completion st.s_generator t fuel = none ∧
      le_generator_trampoline st.s_generator t i = none) ∧
    initialShimState.s_generator = none := by
  refine ⟨rfl, rfl, rfl, rfl, ?_, rfl⟩
  intro hnone
  rw [hnone]
  exact ⟨rfl, rfl⟩

theorem single_generator_slot_witness :
    (le_set_completion sampleGen initialShimState).s_generator =
      some sampleGen ∧
    le_set_completion sampleGen
        (le_set_completion emptyGen initialShimState) =
      le_set_completion sampleGen initialShimState ∧
    le_generator_trampoline
        (le_set_completion sampleGen initialShimState).s_generator "ca" 0 =
      sampleGen "ca" 0 ∧
    attempted_completion
        (le_set_completion sampleGen initialShimState).s_generator "ca" 4 =
      some (rl_completion_matches (le_generator_trampoline (some sampleGen))
        "ca" 4) ∧
    (initialShimState.s_generator = none →
      attempted_completion initialShimState.s_generator "ca" 4 = none ∧
      le_generator_trampoline initialShimState.s_generator "ca" 0 = none) ∧
    initialShimState.s_generator = none :=
  single_generator_slot sampleGen emptyGen initialShimState "ca" 0 4

/-! ## The completion cycle outcome -/

/-- The line buffer around one completion cycle: the text before the
completion span, the fragment being completed, and the text after it. -/
structure EditorView where
  pre : String
  frag : String
  post : String

/-- The full buffer contents, byte for byte. -/
def bufferOf (v : EditorView) : String := v.pre ++ v.frag ++ v.post

/-- What one completion cycle leaves behind: the resulting buffer, whether
the terminal bell was rung, and the candidate list displayed (empty when
nothing is listed). -/
structure CycleOutcome where
  buffer : String
  bellRung : Bool
  listed : List String
deriving DecidableEq

/-- Longest common prefix of two character lists. -/
def commonPrefAux : List Char → List Char → List Char
  | a :: as, b :: bs => if a = b then a :: commonPrefAux as bs else []
  | _, _ => []

/-- Longest common prefix of a candidate list. -/
def commonPrefList : List String → List Char
  | [] => []
  | c :: cs => cs.foldl (fun acc s => commonPrefAux acc s.data) c.data

/-- Modelled from the spec: the completion-cycle policy (spec 4.4) applied
to the match list `attempted_completion` hands back.  Zero candidates (a
NULL match list, or an empty one): ring the terminal bell, buffer
unchanged.  Exactly one candidate: replace the completion span with it.
Multiple candidates (deduplicated first): insert the common prefix when it
extends the fragment, otherwise display the candidate list.  No branch
touches `pre` or `post` except through span replacement. -/
def completeCycle (matchList : Option (List String)) (v : EditorView) :
    CycleOutcome :=
  match matchList with
  | none => ⟨bufferOf v, true, []⟩
  | some ms =>
      match ms.dedup with
      | [] => ⟨bufferOf v, true, []⟩
      | [c] => ⟨v.pre ++ c ++ v.post, false, []⟩
      | cs =>
          let p := String.mk (commonPrefList cs)
          if p = v.frag then ⟨bufferOf v, false, cs⟩
          else ⟨v.pre ++ p ++ v.post, false, []⟩

/-- C7: when completion runs and the registered generator yields zero
candidates (it answers NULL already at state 0), the cycle rings the
terminal bell and leaves the buffer byte-for-byte unchanged (and lists
nothing). -/
theorem zero_candidates_bell_frame (g : String → Nat → Option String)
    (v : EditorView) (fuel : Nat) (hfuel : 1 ≤ fuel)
    (h0 : g v.frag 0 = none) :
    completeCycle (attempted_completion (some g) v.frag fuel) v =
      ⟨bufferOf v, true, []⟩ := by
  obtain ⟨f, rfl⟩ : ∃ f, fuel = f + 1 := ⟨fuel - 1, by omega⟩
  have hmatch : rl_completion_matches (le_generator_trampoline (some g))
      v.frag (f + 1) = [] := by
    simp [rl_completion_matches, completionMatchesAux,
      le_generator_trampoline, h0]
  simp [attempted_completion, hmatch, completeCycle, List.dedup_nil]

theorem zero_candidates_bell_frame_witness :
    1 ≤ 4 ∧ emptyGen "ca" 0 = none ∧
    completeCycle (attempted_completion (some emptyGen) "ca" 4)
        ⟨"echo ", "ca", ""⟩ =
      ⟨bufferOf ⟨"echo ", "ca", ""⟩, true, []⟩ :=
  ⟨by decide, rfl,
    zero_candidates_bell_frame emptyGen ⟨"echo ", "ca", ""⟩ 4 (by decide)
      rfl⟩

/-! ## The bell fallback -/

/-- Embeds the fallback branch of `le_ding` in `libedit_shim.c` (the
`rl_ding` macro is not defined, so the `#else` branch is the compiled
code): `fputc('\a', stdout); fflush(stdout); return 0;`.  The state is the
stream of characters written so far; `writeOk` and `flushOk` say whether
the two stdio calls succeed, and the C code discards both results — the
bell character lands on the stream only when the write succeeds, yet the
returned status is the literal 0 in every case. -/
def le_ding (stdoutChars : List Char) (writeOk : Bool) (_flushOk : Bool) :
    List Char × Int :=
  (if writeOk then stdoutChars ++ ['\x07'] else stdoutChars, 0)

/-- C8: in the fallback path, `le_ding` returns 0 (success) on every call,
whether or not the bell output actually succeeded — the results of the
write and the flush never reach the return value. -/
theorem le_ding_fallback_returns_zero (out : List Char)
    (writeOk flushOk : Bool) :
    (le_ding out writeOk flushOk).2 = 0 ∧
    (le_ding out false flushOk).2 = (le_ding out true flushOk).2 :=
  ⟨rfl, rfl⟩

/-! ## The duplicate copy of the shim -/

/-- Embeds the main copy's setup wrapper (C name `le_` + `init` + `ialize`
in `libedit_shim.c`, shortened here): `rl_initialize();` — a pure
forwarding of the library's setup call on its internal state. -/
def le_init {α : Type} (rlInit : α → α) (libState : α) : α :=
  rlInit libState

namespace ShimB

/-- Embeds `le_readline` from the second copy,
`include/libedit_shim.c`: `return readline(prompt);`. -/
def le_readline (readlineImpl : String → Option String) (prompt : String) :
    Option String :=
  readlineImpl prompt

/-- Embeds `le_add_history` from `include/libedit_shim.c`:
`if (line && *line) add_history(line);`. -/
def le_add_history (line : Option String) (h : List String) : List String :=
  match line with
  | none => h
  | some l => if l = "" then h else add_history l h

/-- Embeds `le_read_history` from `include/libedit_shim.c`:
`return read_history(path);`. -/
def le_read_history (f : FileState) : List String × Int := read_history f

/-- Embeds `le_write_history` from `include/libedit_shim.c`:
`return write_history(path);`. -/
def le_write_history (h : List String) (old : FileState) (writable : Bool) :
    FileState × Int :=
  write_history h old writable

/-- Embeds `le_clear_history` from `include/libedit_shim.c`:
`clear_history();`. -/
def le_clear_history (h : List String) : List String := clear_history h

/-- Embeds the second copy's setup wrapper from `include/libedit_shim.c`:
`rl_initialize();`. -/
def le_init {α : Type} (rlInit : α → α) (libState : α) : α :=
  rlInit libState

/-- Embeds `le_generator_trampoline` from `include/libedit_shim.c`:
`if (!s_generator) return NULL; return s_generator(text, state);`. -/
def le_generator_trampoline
    (s_generator : Option (String → Nat → Option String))
    (text : String) (state : Nat) : Option String :=
  match s_generator with
  | none => none
  | some g => g text state

/-- Embeds `attempted_completion` from `include/libedit_shim.c`:
`if (!s_generator) return NULL;
 return rl_completion_matches(text, le_generator_trampoline);`. -/
def attempted_completion
    (s_generator : Option (String → Nat → Option String))
    (text : String) (fuel : Nat) : Option (List String) :=
  match s_generator with
  | none => none
  | some _ =>
      some (rl_completion_matches (le_generator_trampoline s_generator)
        text fuel)

/-- Embeds `le_set_completion` from `include/libedit_shim.c`:
`s_generator = generator;
 rl_attempted_completion_function = (rl_completion_func_t *)attempted_completion;`. -/
def le_set_completion (g : String → Nat → Option String) (st : ShimState) :
    ShimState :=
  { st with s_generator := some g, hookInstalled := true }

end ShimB

/-- C10: the two copies of the shim source define extensionally equal
functions for every function both define — `le_readline`,
`le_add_history`, `le_read_history`, `le_write_history`,
`le_clear_history`, the setup wrapper, the completion trampoline,
`attempted_completion` and `le_set_completion`.  (`le_ding` has no
counterpart in the second copy, which is why no equation for it can even
be stated here.) -/
theorem shim_copies_extensionally_equal :
    le_readline = ShimB.le_readline ∧
    le_add_history = ShimB.le_add_history ∧
    le_read_history = ShimB.le_read_history ∧
    le_write_history = ShimB.le_write_history ∧
    le_clear_history = ShimB.le_clear_history ∧
    @le_init = @ShimB.le_init ∧
    le_generator_trampoline = ShimB.le_generator_trampoline ∧
    attempted_completion = ShimB.attempted_completion ∧
    le_set_completion = ShimB.le_set_completion :=
  ⟨rfl, rfl, rfl, rfl, rfl, rfl, rfl, rfl, rfl⟩
